import Mathlib

/-!
Verification of the numerical core of the gravitational-wave library:
the IIR filter-set synthesizer / evaluator / Fourier inner product
(LALInspiralIIR.c) and the demodulation (F-statistic) inner loop
(TestLALDemod).  Machine floating-point values are embedded as real
numbers; C casts from floating values to integer types are embedded as
truncation toward zero; fallible routines return an error marker
alongside any partially produced data, mirroring the XLAL error and
ABORT conventions.
-/

open Real

noncomputable section

namespace LALIIR

/-- Truncation toward zero, the semantics of a C cast from a floating
value to an integer type. -/
def intTrunc (x : ℝ) : ℤ := if x < 0 then ⌈x⌉ else ⌊x⌋

/-- Embedding of the C99 cpolar: the complex number with the given
magnitude and phase angle. -/
def cpolar (r th : ℝ) : ℂ := (r : ℂ) * Complex.exp ((th : ℂ) * Complex.I)

/-- Embedding of the C99 crect: the complex number with the given real
and imaginary parts. -/
def crect (x y : ℝ) : ℂ := ⟨x, y⟩

/-- Embedding of the static helper clogabs of LALInspiralIIR.c: the log
of the complex magnitude computed through the overflow-robust
max/ratio form, log(max) + 0.5*log1p(u*u). -/
def clogabs (z : ℂ) : ℝ :=
  let xabs := |z.re|
  let yabs := |z.im|
  if yabs ≤ xabs then Real.log xabs + 0.5 * Real.log (1 + (yabs / xabs) ^ 2)
  else Real.log yabs + 0.5 * Real.log (1 + (xabs / yabs) ^ 2)

/-- One record of the IIR filter set: feedback coefficient a1,
feedforward coefficient b0, and the integer delay. -/
structure IIRFilter where
  a1 : ℂ
  b0 : ℂ
  delay : ℤ

/-- Element access phase->data[t] with the C int index embedded as an
integer; out-of-range access yields the default 0. -/
def phAt (phase : List ℝ) (t : ℤ) : ℝ := phase.getD t.toNat 0

/-- Second derivative estimate phase_ddot of XLALInspiralGenerateIIRSet
(after the fabs), including the edge-adjusted stencil choice at
j > (int)(phase->length - 3). -/
def phaseDD (phase : List ℝ) (j : ℤ) : ℝ :=
  |if (phase.length : ℤ) - 3 < j then
      (phAt phase (j - 2) - 2 * phAt phase (j - 1) + phAt phase j) / (2 * Real.pi)
    else
      (phAt phase (j - 1) - 2 * phAt phase j + phAt phase (j + 1)) / (2 * Real.pi)|

/-- Third derivative estimate phase_tdot of XLALInspiralGenerateIIRSet
(after the fabs). -/
def phaseTD (phase : List ℝ) (j : ℤ) : ℝ :=
  |if (phase.length : ℤ) - 3 < j then
      (phAt phase (j - 3) - 3 * phAt phase (j - 2) + 3 * phAt phase (j - 1) - phAt phase j) /
        (2 * Real.pi)
    else
      (-0.5 * phAt phase (j - 2) + phAt phase (j - 1) - phAt phase (j + 1) +
          0.5 * phAt phase (j + 2)) / (2 * Real.pi)|

/-- Instantaneous frequency estimate phase_dot at the anchor index k,
with the boundary-dependent stencil selection of the source (na is
amp->length). -/
def phaseDot (phase : List ℝ) (na k : ℤ) : ℝ :=
  if na - 3 < k then
    11 / 6 * phAt phase k - 3 * phAt phase (k - 1) + 1.5 * phAt phase (k - 2) -
      1 / 3 * phAt phase (k - 3)
  else if 2 ≤ k then
    (-phAt phase (k + 2) + 8 * (phAt phase (k + 1) - phAt phase (k - 1)) + phAt phase (k - 2)) / 12
  else
    -11 / 6 * phAt phase k + 3 * phAt phase (k + 1) - 1.5 * phAt phase (k + 2) +
      1 / 3 * phAt phase (k + 3)

/-- Step-size and anchor computation of one iteration of
XLALInspiralGenerateIIRSet: the two candidate step sizes from the
second and third order error budgets, the smaller one floored at 2,
then the anchor k = floor(j - alpha*jstep + 0.5) with the jstep = j
fallback when k < 1.  Returns (jstep, k). -/
def iirJstep (phase : List ℝ) (eps alf : ℝ) (j : ℤ) : ℤ × ℤ :=
  let dd := phaseDD phase j
  let td := phaseTD phase j
  let js2 : ℤ := ⌊Real.sqrt (2 * eps / dd) + 0.5⌋
  let js3 : ℤ := ⌊(6 * eps / td) ^ ((1 : ℝ) / 3) + 0.5⌋
  let js0 : ℤ := if js2 < js3 then js2 else js3
  let js1 : ℤ := if js0 < 2 then 2 else js0
  let k0 : ℤ := ⌊(j : ℝ) - alf * (js1 : ℝ) + 0.5⌋
  if k0 < 1 then (j, ⌊(j : ℝ) - alf * (j : ℝ) + 0.5⌋)
  else (js1, k0)

/-- Main loop of XLALInspiralGenerateIIRSet, walking the cursor j
backward while j > 3.  Returns the list of appended filter records in
order of appending, and a success flag which is false when the
XLAL_ERROR at k < 0 fires (the records appended before the error are
kept, as the resized output vectors are). -/
def iirGenLoop (amp phase : List ℝ) (eps alf bet : ℝ) (j : ℤ) : List IIRFilter × Bool :=
  if h : 3 < j then
    let jk := iirJstep phase eps alf j
    if jk.2 < 0 then ([], false)
    else
      let pd := phaseDot phase (amp.length : ℤ) jk.2
      let f : IIRFilter :=
        ⟨cpolar (Real.exp (-bet / (jk.1 : ℝ))) (-pd),
         cpolar (amp.getD jk.2.toNat 0) (phAt phase jk.2 + pd * ((j : ℝ) - (jk.2 : ℝ))),
         (amp.length : ℤ) - 1 - j⟩
      if jk.2 < 2 then ([f], true)
      else
        let r := iirGenLoop amp phase eps alf bet (j - jk.1)
        (f :: r.1, r.2)
  else ([], true)
termination_by j.toNat
decreasing_by
  have h2 : 2 ≤ (iirJstep phase eps alf j).1 := by
    unfold iirJstep
    dsimp only
    split_ifs <;> dsimp only <;> omega
  omega

/-- Embedding of XLALInspiralGenerateIIRSet: after the length check the
loop starts at j = amp->length - 1; on success the filter records are
returned (the a1, b0 and delay output vectors are their fields). -/
def XLALInspiralGenerateIIRSet (amp phase : List ℝ) (eps alf bet : ℝ) :
    Option (List IIRFilter) :=
  if amp.length = phase.length then
    let r := iirGenLoop amp phase eps alf bet ((amp.length : ℤ) - 1)
    if r.2 then some r.1 else none
  else none

/-- Truncation length computed by XLALInspiralIIRSetResponse for one
filter, length = (int)(logf(1e-13))/(logf(cabs(a1))): the C cast binds
tighter than the division, so the numerator is truncated to an int
before dividing, and the quotient is truncated again on assignment to
the int variable. -/
def iirTruncLen (a1 : ℂ) : ℤ :=
  intTrunc ((intTrunc (Real.log 1e-13) : ℝ) / Real.log (Complex.abs a1))

/-- Inner accumulation loop of XLALInspiralIIRSetResponse for one
filter: n steps of y *= a1; response[pos] += y with pos advancing. -/
def respInner (a : ℂ) : ℕ → ℂ → ℤ → (ℤ → ℂ) → ℤ → ℂ
  | 0, _, _, r => r
  | n + 1, y, pos, r =>
      respInner a n (y * a) (pos + 1) (Function.update r pos (r pos + y * a))

/-- Outer loop of XLALInspiralIIRSetResponse over the filter records
(a1, b0, delay): the truncation length is capped at
maxlength = response->length - delay, and the inner loop starts from
y = b0/a1 at position delay. -/
def respFilters : List (ℂ × ℂ × ℤ) → ℕ → (ℤ → ℂ) → ℤ → ℂ
  | [], _, r => r
  | t :: rest, L, r =>
      let len0 := iirTruncLen t.1
      let maxlen : ℤ := (L : ℤ) - t.2.2
      let len := if maxlen < len0 then maxlen else len0
      respFilters rest L (respInner t.1 len.toNat (t.2.1 / t.1) t.2.2 r)

/-- Embedding of XLALInspiralIIRSetResponse on a buffer of length L
with initial contents r0: when the three sequences have mismatched
lengths, XLAL_ERROR fires before the memset, leaving the buffer
untouched; otherwise the buffer entries 0..L-1 are zeroed and the
filters accumulated.  The flag is the success indicator. -/
def XLALInspiralIIRSetResponse (a1 b0 : List ℂ) (delay : List ℤ) (L : ℕ) (r0 : ℤ → ℂ) :
    Bool × (ℤ → ℂ) :=
  if a1.length = b0.length ∧ a1.length = delay.length then
    (true,
      respFilters (a1.zip (b0.zip delay)) L fun i => if 0 ≤ i ∧ i < (L : ℤ) then 0 else r0 i)
  else (false, r0)

/-- Embedding of XLALInspiralGenerateIIRSetFourierTransform: the closed
form frequency-domain contribution of one filter at bin j of jmax,
returning (hfcos, hfsin). -/
def XLALInspiralGenerateIIRSetFourierTransform (j jmax : ℤ) (a1 b0 : ℂ) (delay : ℤ) :
    ℂ × ℂ :=
  let loga1 := clogabs a1
  let arga1 := Complex.arg a1
  let pf := 2 * Real.pi * (j : ℝ) / (jmax : ℝ)
  let scl := cpolar 0.5 (-(pf * ((jmax : ℝ) - (delay : ℝ))))
  let ft := b0 / crect (-loga1) (-arga1 - pf)
  let ftc := (starRingEnd ℂ) b0 / crect (-loga1) (arga1 - pf)
  (scl * (ft + ftc), scl * (ft - ftc))

/-- Embedding of XLALInspiralCalculateIIRSetInnerProduct: over each of
the psd->length one-sided bins, the cosine-quadrature contributions of
all filters are summed into hA and cabs(hA)^2/(psd[j]*P) accumulated. -/
def XLALInspiralCalculateIIRSetInnerProduct (a1 b0 : List ℂ) (delay : List ℤ)
    (psd : List ℝ) : ℝ :=
  ∑ j ∈ Finset.range psd.length,
    (let hA := ∑ k ∈ Finset.range a1.length,
        (XLALInspiralGenerateIIRSetFourierTransform (j : ℤ) (2 * (psd.length : ℤ))
            (a1.getD k 0) (b0.getD k 0) (delay.getD k 0)).1
     Complex.abs hA * Complex.abs hA / (psd.getD j 0 * (psd.length : ℝ)))

/-- Lookup table sinVal of TestLALDemod: sin(2*pi*k/LUT_RES) with
LUT_RES = 64 (the table is filled for k up to 80, covering the
quarter-period overlap used for cosine access). -/
def sinVal (k : ℕ) : ℝ := Real.sin (2 * Real.pi * k / 64)

/-- Cosine access into the sine table at the quarter-period offset:
cosVal = sinVal + LUT_RES/4. -/
def cosVal (k : ℕ) : ℝ := sinVal (k + 16)

/-- Table sinVal2PI of TestLALDemod: sinVal[k] * 2 pi. -/
def sinVal2PI (k : ℕ) : ℝ := sinVal k * (2 * Real.pi)

/-- Offset cosine access into sinVal2PI. -/
def cosVal2PI (k : ℕ) : ℝ := sinVal2PI (k + 16)

/-- Table sinVal2PIPI of TestLALDemod: sinVal2PI[k] * pi. -/
def sinVal2PIPI (k : ℕ) : ℝ := sinVal2PI k * Real.pi

/-- Offset cosine access into sinVal2PIPI. -/
def cosVal2PIPI (k : ℕ) : ℝ := sinVal2PIPI (k + 16)

/-- Table divLUTtab of TestLALDemod: k / LUT_RES. -/
def divLUTtab (k : ℕ) : ℝ := (k : ℝ) / 64

/-- Nearest-knot index into the lookup table for a fractional phase:
(UINT4)(x * LUT_RES + .5). -/
def lutIdx (x : ℝ) : ℕ := (⌊x * 64 + 0.5⌋).toNat

/-- Lookup-table sine evaluation of TestLALDemod with the second-order
Taylor correction: sinVal[idx] + d*cosVal2PI[idx] - d^2*sinVal2PIPI[idx]
with d = x - divLUTtab[idx]. -/
def lutSin (x : ℝ) : ℝ :=
  sinVal (lutIdx x) + (x - divLUTtab (lutIdx x)) * cosVal2PI (lutIdx x) -
    (x - divLUTtab (lutIdx x)) ^ 2 * sinVal2PIPI (lutIdx x)

/-- Lookup-table cosine evaluation of TestLALDemod (before the tcos -=
1.0 adjustment of the Dirichlet-kernel branch): cosVal[idx] -
d*sinVal2PI[idx] - d^2*cosVal2PIPI[idx]. -/
def lutCos (x : ℝ) : ℝ :=
  cosVal (lutIdx x) - (x - divLUTtab (lutIdx x)) * sinVal2PI (lutIdx x) -
    (x - divLUTtab (lutIdx x)) ^ 2 * cosVal2PIPI (lutIdx x)

/-- Threshold LD_SMALL = 1.0e-9 / LAL_TWOPI of TestLALDemod. -/
def LD_SMALL : ℝ := 1e-9 / (2 * Real.pi)

/-- The unsigned modulus 2^32 entering the comparison of the int
sftIndex-1 against the UINT4 maxSFTindex (usual arithmetic conversions
convert the int operand to unsigned). -/
def UINT4_MOD : ℤ := 4294967296

/-- Abort causes of the demodulation body: the exit on a negative
phase-model value xTemp, the ABORT on a negative sftIndex, and the
ABORT of the post-loop index check. -/
inductive DemodErr where
  | xTempNeg : DemodErr
  | sftNeg : DemodErr
  | sftPast : DemodErr

/-- Parameters and input data of TestLALDemod.  The fields mirror
DemodPar together with the global maxSFTindex, the antenna-pattern
coefficients a, b (aCoe, bCoe), the matrix terms A, B, C, D, and the
per-segment spectra Xalpha.  The field smallThresh stands for the
constant SMALL of ComputeFStatistic.h, which is not part of the
sources at hand; no result below depends on its value. -/
structure DemodParams where
  Dterms : ℕ
  ifmin : ℤ
  maxSFTindex : ℕ
  SFTno : ℕ
  imax : ℕ
  f0 : ℝ
  df : ℝ
  spinDwnOrder : ℕ
  spinDwn : ℕ → ℝ
  skyConst : ℕ → ℝ
  A : ℝ
  B : ℝ
  C : ℝ
  D : ℝ
  aCoe : ℕ → ℝ
  bCoe : ℕ → ℝ
  Xalpha : ℕ → ℤ → ℂ
  returnFaFb : Bool
  smallThresh : ℝ

/-- Index helper tempInt1[alpha] = 2*alpha*(spinDwnOrder+1)+1 of
TestLALDemod. -/
def tempInt1 (spOrder alf : ℕ) : ℕ := 2 * alf * (spOrder + 1) + 1

/-- Spin-down sum xSum[alpha] of TestLALDemod. -/
def xSumVal (p : DemodParams) (alf : ℕ) : ℝ :=
  ∑ s ∈ Finset.range p.spinDwnOrder,
    p.spinDwn s * p.skyConst (tempInt1 p.spinDwnOrder alf + 2 + 2 * s)

/-- Spin-down sum ySum[alpha] of TestLALDemod. -/
def ySumVal (p : DemodParams) (alf : ℕ) : ℝ :=
  ∑ s ∈ Finset.range p.spinDwnOrder,
    p.spinDwn s * p.skyConst (tempInt1 p.spinDwnOrder alf + 1 + 2 * s)

/-- Phase model value xTemp = f * skyConst[tempInt1[alpha]] +
xSum[alpha] at trial bin i and segment alf. -/
def xTempVal (p : DemodParams) (i alf : ℕ) : ℝ :=
  (p.f0 + (i : ℝ) * p.df) * p.skyConst (tempInt1 p.spinDwnOrder alf) + xSumVal p alf

/-- Fractional part tempFreq0 = xTemp - (UINT4)xTemp of the phase model
value (xTemp is checked non-negative before use). -/
def tempFreq0Val (p : DemodParams) (i alf : ℕ) : ℝ :=
  xTempVal p i alf - ((⌊xTempVal p i alf⌋ : ℤ) : ℝ)

/-- Read start index sftIndex = xTInt - Dterms + 1 - ifmin of
TestLALDemod. -/
def sftIndexVal (p : DemodParams) (i alf : ℕ) : ℤ :=
  ⌊xTempVal p i alf⌋ - (p.Dterms : ℤ) + 1 - p.ifmin

/-- Secondary phase yTemp wrapped into [0,1): yRem = yTemp -
(INT4)yTemp, plus 1 when negative. -/
def yRemVal (p : DemodParams) (i alf : ℕ) : ℝ :=
  let yTemp := (p.f0 + (i : ℝ) * p.df) * p.skyConst (tempInt1 p.spinDwnOrder alf - 1) +
    ySumVal p alf
  let y0 := yTemp - (intTrunc yTemp : ℝ)
  if y0 < 0 then y0 + 1 else y0

/-- Dirichlet-kernel sum of the small-offset branch of TestLALDemod
(tempFreq0 < LD_SMALL): each of the 2*Dterms samples is taken raw when
the kernel argument x is below SMALL and weighted by (tsin/x, tcos/x)
otherwise. -/
def dirichletKernelSmall (tsin tcos tf0 : ℝ) (Dterms : ℕ) (small : ℝ) (X : ℤ → ℂ)
    (sftIndex : ℤ) : ℂ :=
  ∑ k ∈ Finset.range (2 * Dterms),
    (let tf1 := tf0 + (Dterms : ℝ) - 1 - (k : ℝ)
     let x := 2 * Real.pi * tf1
     let Xa := X (sftIndex + (k : ℤ))
     if |x| < small then Xa
     else ⟨Xa.re * (tsin / x) - Xa.im * (tcos / x), Xa.re * (tcos / x) + Xa.im * (tsin / x)⟩)

/-- Dirichlet-kernel sum of the generic branch of TestLALDemod: weights
tsin*xinv, tcos*xinv with xinv = (1/(2 pi))/tempFreq1. -/
def dirichletKernelGen (tsin tcos tf0 : ℝ) (Dterms : ℕ) (X : ℤ → ℂ) (sftIndex : ℤ) : ℂ :=
  ∑ k ∈ Finset.range (2 * Dterms),
    (let tf1 := tf0 + (Dterms : ℝ) - 1 - (k : ℝ)
     let xinv := 1 / (2 * Real.pi) / tf1
     let Xa := X (sftIndex + (k : ℤ))
     ⟨Xa.re * (tsin * xinv) - Xa.im * (tcos * xinv),
      Xa.re * (tcos * xinv) + Xa.im * (tsin * xinv)⟩)

/-- Indices of the spectrum samples the Dirichlet-kernel loops access
for one (bin, segment) body: the window of 2*Dterms samples starting
at sftIndex. -/
def demodReadIdx (p : DemodParams) (i alf : ℕ) : List ℤ :=
  (List.range (2 * p.Dterms)).map fun k : ℕ => sftIndexVal p i alf + (k : ℤ)

/-- Body of TestLALDemod for one trial bin i and one segment alf, on
the spectrum X: computes the lookup-table phases, aborts on negative
xTemp or negative sftIndex, runs the branch selected by
tempFreq0 < LD_SMALL, applies the post-loop index check (against the
running sftIndex, advanced only in the small branch, converted to
unsigned), and returns QXP = XP * Q. -/
def demodSeg (p : DemodParams) (i alf : ℕ) (X : ℤ → ℂ) : Except DemodErr ℂ :=
  if xTempVal p i alf < 0 then .error .xTempNeg
  else
    let tsin := lutSin (tempFreq0Val p i alf)
    let tcos := lutCos (tempFreq0Val p i alf) - 1
    let realQ := lutCos (yRemVal p i alf)
    let imagQ := -lutSin (yRemVal p i alf)
    let sftIndex := sftIndexVal p i alf
    if sftIndex < 0 then .error .sftNeg
    else
      if tempFreq0Val p i alf < LD_SMALL then
        let XP := dirichletKernelSmall tsin tcos (tempFreq0Val p i alf) p.Dterms
          p.smallThresh X sftIndex
        if (p.maxSFTindex : ℤ) < (sftIndex + 2 * (p.Dterms : ℤ) - 1) % UINT4_MOD then
          .error .sftPast
        else .ok ⟨XP.re * realQ - XP.im * imagQ, XP.re * imagQ + XP.im * realQ⟩
      else
        let XP := dirichletKernelGen tsin tcos (tempFreq0Val p i alf) p.Dterms X sftIndex
        if (p.maxSFTindex : ℤ) < (sftIndex - 1) % UINT4_MOD then .error .sftPast
        else .ok ⟨XP.re * realQ - XP.im * imagQ, XP.re * imagQ + XP.im * realQ⟩

/-- Value QXP contributed by segment alf at bin i on a successful body
run (0 when the body aborts). -/
def segQXP (p : DemodParams) (i alf : ℕ) : ℂ :=
  ((demodSeg p i alf (p.Xalpha alf)).toOption).getD 0

/-- Double-sideband partial sum Fa at bin i: the antenna-pattern
weighted sum of the per-segment contributions. -/
def FaVal (p : DemodParams) (i : ℕ) : ℂ :=
  ((List.range p.SFTno).map fun alf => (p.aCoe alf : ℂ) * segQXP p i alf).sum

/-- Double-sideband partial sum Fb at bin i. -/
def FbVal (p : DemodParams) (i : ℕ) : ℂ :=
  ((List.range p.SFTno).map fun alf => (p.bCoe alf : ℂ) * segQXP p i alf).sum

/-- Per-bin segment loop of TestLALDemod over the listed segments:
accumulates Fa and Fb componentwise (Fa.re += a*realQXP and so on),
propagating the first abort. -/
def demodBinLoop (p : DemodParams) (i : ℕ) (acc : ℂ × ℂ) :
    List ℕ → Except DemodErr (ℂ × ℂ)
  | [] => .ok acc
  | alf :: rest =>
      match demodSeg p i alf (p.Xalpha alf) with
      | .error e => .error e
      | .ok q =>
          demodBinLoop p i
            (⟨acc.1.re + p.aCoe alf * q.re, acc.1.im + p.aCoe alf * q.im⟩,
             ⟨acc.2.re + p.bCoe alf * q.re, acc.2.im + p.bCoe alf * q.im⟩) rest

/-- Per-bin segment loop of TestLALDemod starting from Fa = Fb = 0 over
all SFTno segments. -/
def demodBin (p : DemodParams) (i : ℕ) : Except DemodErr (ℂ × ℂ) :=
  demodBinLoop p i (⟨0, 0⟩, ⟨0, 0⟩) (List.range p.SFTno)

/-- Statistic combination stored into Fs->F[i]:
(4/(M*D))*(B*FaSq + A*FbSq - 2*C*FaFb) with the squares and cross term
computed componentwise as in the source. -/
def demodStat (p : DemodParams) (Fab : ℂ × ℂ) : ℝ :=
  let FaSq := Fab.1.re * Fab.1.re + Fab.1.im * Fab.1.im
  let FbSq := Fab.2.re * Fab.2.re + Fab.2.im * Fab.2.im
  let FaFb := Fab.1.re * Fab.2.re + Fab.1.im * Fab.2.im
  4 / ((p.SFTno : ℝ) * p.D) * (p.B * FaSq + p.A * FbSq - 2 * p.C * FaFb)

/-- Outer loop of TestLALDemod over the listed trial bins, storing the
statistic for each bin into Fs->F and, when returnFaFb is set, the
partial sums into Fs->Fa and Fs->Fb; the first abort ends the
computation. -/
def demodMainLoop (p : DemodParams) (out : List ℝ × List ℂ × List ℂ) :
    List ℕ → Except DemodErr (List ℝ × List ℂ × List ℂ)
  | [] => .ok out
  | i :: rest =>
      match demodBin p i with
      | .error e => .error e
      | .ok Fab =>
          demodMainLoop p
            (out.1 ++ [demodStat p Fab],
             if p.returnFaFb then out.2.1 ++ [Fab.1] else out.2.1,
             if p.returnFaFb then out.2.2 ++ [Fab.2] else out.2.2) rest

/-- Embedding of TestLALDemod: the loop over the imax trial bins
starting from empty output arrays. -/
def TestLALDemod (p : DemodParams) : Except DemodErr (List ℝ × List ℂ × List ℂ) :=
  demodMainLoop p ([], [], []) (List.range p.imax)

/-- Concrete demodulation parameter set used for witnesses and
counterexamples: one segment, one trial bin, no spin-down, Dterms = 4,
ifmin = 0, maxSFTindex = 10, constant sky constants 21/2 so that
xTemp = 10.5 and sftIndex = 7. -/
def demodExample : DemodParams where
  Dterms := 4
  ifmin := 0
  maxSFTindex := 10
  SFTno := 1
  imax := 1
  f0 := 1
  df := 0
  spinDwnOrder := 0
  spinDwn := fun _ => 0
  skyConst := fun _ => 21 / 2
  A := 1
  B := 1
  C := 1
  D := 1
  aCoe := fun _ => 1
  bCoe := fun _ => 1
  Xalpha := fun _ _ => 0
  returnFaFb := true
  smallThresh := 1

/-- Success test of an Except value. -/
def isOkE {e a : Type} (x : Except e a) : Bool :=
  match x with
  | .ok _ => true
  | .error _ => false

/-- Truncation length for one filter following the words of the spec
claim C3: log(1e-13)/log(|a1|), as a real quotient truncated to the
int variable it is assigned to. -/
def specIIRLen (a1 : ℂ) : ℤ := intTrunc (Real.log 1e-13 / Real.log (Complex.abs a1))

/-- Response accumulation claimed by C3, following the words of the
spec: each filter contributes exactly b0*a1^n at positions delay+n for
n = 0 .. length-1, with length = log(1e-13)/log(|a1|) capped at
L - delay. -/
def specIIRResponse (a1 b0 : List ℂ) (delay : List ℤ) (L : ℕ) (i : ℤ) : ℂ :=
  ((a1.zip (b0.zip delay)).map fun t =>
    if t.2.2 ≤ i ∧ i < t.2.2 + min (specIIRLen t.1) ((L : ℤ) - t.2.2) then
      t.2.1 * t.1 ^ (i - t.2.2).toNat
    else 0).sum

end LALIIR

namespace LALIIR

theorem iirJstep_fst_ge_two (phase : List ℝ) (eps alf : ℝ) (j : ℤ) (hj : 3 < j) :
    2 ≤ (iirJstep phase eps alf j).1 := by
  unfold iirJstep
  dsimp only
  split_ifs <;> dsimp only <;> omega

/-- C9: with an envelope of length exactly 4 the loop guard j > 3 fails
immediately at j = 3, so the synthesizer succeeds with zero filters. -/
theorem generateIIRSet_length_four_empty (amp phase : List ℝ) (eps alf bet : ℝ)
    (ha : amp.length = 4) (hp : phase.length = 4) :
    XLALInspiralGenerateIIRSet amp phase eps alf bet = some [] := by
  unfold XLALInspiralGenerateIIRSet
  rw [ha, hp, iirGenLoop]
  norm_num

/-- Witness for C9 at a concrete length-4 envelope. -/
theorem generateIIRSet_length_four_empty_witness :
    (List.replicate 4 (1 : ℝ)).length = 4 ∧
      XLALInspiralGenerateIIRSet (List.replicate 4 (1 : ℝ)) (List.replicate 4 (0 : ℝ)) 1 0 1 =
        some [] :=
  ⟨by simp, generateIIRSet_length_four_empty _ _ _ _ _ (by simp) (by simp)⟩

theorem abs_cpolar (r th : ℝ) : Complex.abs (cpolar r th) = |r| := by
  unfold cpolar
  rw [map_mul, Complex.abs_ofReal, Complex.abs_exp_ofReal_mul_I, mul_one]

/-- Invariant of the synthesizer loop: every appended record has delay
N - 1 - jx for the cursor value jx at which it was appended, hence the
delays of the records lie in the window [N-1-j, N-5], are strictly
increasing, and every a1 has magnitude exp(-bet/jstep) for the jstep
of its iteration, which is at least 2. -/
theorem iirGenLoop_inv (amp phase : List ℝ) (eps alf bet : ℝ) :
    ∀ j : ℤ, j ≤ (amp.length : ℤ) - 1 →
      (∀ f ∈ (iirGenLoop amp phase eps alf bet j).1,
          (amp.length : ℤ) - 1 - j ≤ f.delay ∧ f.delay ≤ (amp.length : ℤ) - 5) ∧
        ((iirGenLoop amp phase eps alf bet j).1.map IIRFilter.delay).Sorted (· < ·) ∧
        (∀ f ∈ (iirGenLoop amp phase eps alf bet j).1,
          ∃ js : ℤ, 2 ≤ js ∧ Complex.abs f.a1 = Real.exp (-bet / (js : ℝ))) := by
  intro j
  generalize hn : j.toNat = n
  induction n using Nat.strong_induction_on generalizing j with
  | _ n IH =>
    intro hj
    rw [iirGenLoop]
    by_cases h3 : 3 < j
    · have hjs := iirJstep_fst_ge_two phase eps alf j h3
      simp only [dif_pos h3]
      by_cases hk0 : (iirJstep phase eps alf j).2 < 0
      · simp [hk0]
      · simp only [if_neg hk0]
        have habs :
            Complex.abs (cpolar (Real.exp (-bet / ((iirJstep phase eps alf j).1 : ℝ)))
              (-phaseDot phase (amp.length : ℤ) (iirJstep phase eps alf j).2)) =
              Real.exp (-bet / ((iirJstep phase eps alf j).1 : ℝ)) := by
          rw [abs_cpolar, abs_of_pos (Real.exp_pos _)]
        by_cases hk2 : (iirJstep phase eps alf j).2 < 2
        · simp only [if_pos hk2]
          refine ⟨?_, ?_, ?_⟩
          · intro f hf
            simp only [List.mem_singleton] at hf
            subst hf
            constructor <;> simp <;> omega
          · simp
          · intro f hf
            simp only [List.mem_singleton] at hf
            subst hf
            exact ⟨(iirJstep phase eps alf j).1, hjs, habs⟩
        · simp only [if_neg hk2]
          have hlt : (j - (iirJstep phase eps alf j).1).toNat < n := by omega
          have hle : j - (iirJstep phase eps alf j).1 ≤ (amp.length : ℤ) - 1 := by omega
          obtain ⟨IH1, IH2, IH3⟩ :=
            IH (j - (iirJstep phase eps alf j).1).toNat hlt (j - (iirJstep phase eps alf j).1)
              rfl hle
          refine ⟨?_, ?_, ?_⟩
          · intro f hf
            rcases List.mem_cons.1 hf with hf | hf
            · subst hf
              constructor <;> simp <;> omega
            · have := IH1 f hf
              omega
          · rw [List.map_cons, List.sorted_cons]
            refine ⟨?_, IH2⟩
            intro b hb
            simp only [List.mem_map] at hb
            obtain ⟨g, hg, rfl⟩ := hb
            have := IH1 g hg
            simp only []
            omega
          · intro f hf
            rcases List.mem_cons.1 hf with hf | hf
            · subst hf
              exact ⟨(iirJstep phase eps alf j).1, hjs, habs⟩
            · exact IH3 f hf
    · simp [dif_neg h3]

/-- C1 (amended): the cursor starts at N - 1 = amp->length - 1, so the
first appended filter record has delay (N-1) - j equal to 0, not 1;
with no filters produced the default 0 is returned as well. -/
theorem generateIIRSet_first_delay_zero (amp phase : List ℝ) (eps alf bet : ℝ) :
    (((XLALInspiralGenerateIIRSet amp phase eps alf bet).getD []).map
        IIRFilter.delay).headD 0 = 0 := by
  unfold XLALInspiralGenerateIIRSet
  by_cases hlen : amp.length = phase.length
  · simp only [if_pos hlen]
    rw [iirGenLoop]
    by_cases h3 : 3 < (amp.length : ℤ) - 1
    · simp only [dif_pos h3]
      by_cases hk0 : (iirJstep phase eps alf ((amp.length : ℤ) - 1)).2 < 0
      · simp [hk0]
      · simp only [if_neg hk0]
        by_cases hk2 : (iirJstep phase eps alf ((amp.length : ℤ) - 1)).2 < 2
        · simp [hk2]
        · by_cases hok :
              (iirGenLoop amp phase eps alf bet
                ((amp.length : ℤ) - 1 - (iirJstep phase eps alf ((amp.length : ℤ) - 1)).1)).2 =
                true
          · simp [hk2, hok]
          · simp [hk2, hok]
    · simp [dif_neg h3]
  · simp [hlen]

/-- C6: for every envelope the synthesizer returns, the delay sequence
is non-decreasing in append order and every delay lies in [0, N-1]. -/
theorem generateIIRSet_delays_sorted_bounded (amp phase : List ℝ) (eps alf bet : ℝ) :
    (((XLALInspiralGenerateIIRSet amp phase eps alf bet).getD []).map
        IIRFilter.delay).Sorted (· ≤ ·) ∧
      (((XLALInspiralGenerateIIRSet amp phase eps alf bet).getD []).map
          IIRFilter.delay).Forall fun d => 0 ≤ d ∧ d ≤ (amp.length : ℤ) - 1 := by
  have key := iirGenLoop_inv amp phase eps alf bet ((amp.length : ℤ) - 1) le_rfl
  unfold XLALInspiralGenerateIIRSet
  by_cases hlen : amp.length = phase.length
  · simp only [if_pos hlen]
    by_cases hok : (iirGenLoop amp phase eps alf bet ((amp.length : ℤ) - 1)).2 = true
    · simp only [if_pos hok, Option.getD_some]
      obtain ⟨h1, h2, _⟩ := key
      refine ⟨h2.le_of_lt, ?_⟩
      rw [List.forall_iff_forall_mem]
      intro d hd
      simp only [List.mem_map] at hd
      obtain ⟨f, hf, rfl⟩ := hd
      have := h1 f hf
      omega
    · simp [hok]
  · simp [hlen]

/-- C7: every decay coefficient a1 the synthesizer returns has magnitude
exp(-bet/jstep) for the jstep of its iteration, which is at least 2,
hence magnitude strictly below 1 whenever bet > 0. -/
theorem generateIIRSet_a1_stable (amp phase : List ℝ) (eps alf bet : ℝ) (hb : 0 < bet) :
    ((XLALInspiralGenerateIIRSet amp phase eps alf bet).getD []).Forall
      fun f => (∃ js : ℤ, 2 ≤ js ∧ Complex.abs f.a1 = Real.exp (-bet / (js : ℝ))) ∧
        Complex.abs f.a1 < 1 := by
  have key := iirGenLoop_inv amp phase eps alf bet ((amp.length : ℤ) - 1) le_rfl
  unfold XLALInspiralGenerateIIRSet
  by_cases hlen : amp.length = phase.length
  · simp only [if_pos hlen]
    by_cases hok : (iirGenLoop amp phase eps alf bet ((amp.length : ℤ) - 1)).2 = true
    · simp only [if_pos hok, Option.getD_some]
      rw [List.forall_iff_forall_mem]
      intro f hf
      obtain ⟨js, hjs, hform⟩ := key.2.2 f hf
      refine ⟨⟨js, hjs, hform⟩, ?_⟩
      rw [hform, Real.exp_lt_one_iff]
      have hpos : (0 : ℝ) < (js : ℝ) := by
        exact_mod_cast lt_of_lt_of_le (by norm_num) hjs
      have : 0 < bet / (js : ℝ) := div_pos hb hpos
      rw [neg_div]
      linarith
    · simp [hok]
  · simp [hlen]

theorem phAt_replicate_zero (n : ℕ) (t : ℤ) : phAt (List.replicate n (0 : ℝ)) t = 0 := by
  simp only [phAt, List.getD_eq_getElem?_getD, List.getElem?_replicate]
  split <;> rfl

theorem iirJstep_eval : iirJstep (List.replicate 6 (0 : ℝ)) 1 0 5 = (2, 5) := by
  have hdd : phaseDD (List.replicate 6 (0 : ℝ)) 5 = 0 := by
    unfold phaseDD
    split_ifs <;> simp only [phAt_replicate_zero] <;> norm_num
  have htd : phaseTD (List.replicate 6 (0 : ℝ)) 5 = 0 := by
    unfold phaseTD
    split_ifs <;> simp only [phAt_replicate_zero] <;> norm_num
  have h05 : (⌊(0 : ℝ) + 0.5⌋ : ℤ) = 0 := by
    rw [Int.floor_eq_iff] <;> norm_num
  have h55 : (⌊(5 : ℝ) - 0 * ((2 : ℤ) : ℝ) + 0.5⌋ : ℤ) = 5 := by
    rw [Int.floor_eq_iff] <;> norm_num
  unfold iirJstep
  rw [hdd, htd]
  norm_num [Real.zero_rpow, h05] at h55 ⊢

theorem iirGenLoop_eval :
    iirGenLoop (List.replicate 6 (1 : ℝ)) (List.replicate 6 (0 : ℝ)) 1 0 1 5 =
      ([⟨cpolar (Real.exp (-(1 : ℝ) / 2)) 0, cpolar 1 0, 0⟩], true) := by
  have hdot : phaseDot (List.replicate 6 (0 : ℝ)) 6 5 = 0 := by
    unfold phaseDot
    split_ifs <;> simp only [phAt_replicate_zero] <;> norm_num
  have hb0 : (List.replicate 6 (1 : ℝ)).getD 5 0 = 1 := by
    simp [List.getD_eq_getElem?_getD, List.getElem?_replicate]
  rw [iirGenLoop]
  rw [dif_pos (by norm_num : (3 : ℤ) < 5), iirJstep_eval]
  norm_num [hb0, phAt_replicate_zero]
  rw [hdot, iirGenLoop]
  norm_num

theorem generateIIRSet_eval :
    XLALInspiralGenerateIIRSet (List.replicate 6 (1 : ℝ)) (List.replicate 6 (0 : ℝ)) 1 0 1 =
      some [⟨cpolar (Real.exp (-(1 : ℝ) / 2)) 0, cpolar 1 0, 0⟩] := by
  unfold XLALInspiralGenerateIIRSet
  norm_num
  rw [iirGenLoop_eval]
  constructor <;> norm_num

/-- C1 counterexample: at the concrete length-6 envelope with constant
amplitude 1 and constant phase 0, eps = 1, alf = 0, bet = 1, the first
appended filter record has delay 0, refuting the claimed first delay
of 1 (and with it the claimed start of the cursor at N-2). -/
theorem generateIIRSet_first_delay_counterexample :
    (((XLALInspiralGenerateIIRSet (List.replicate 6 (1 : ℝ)) (List.replicate 6 (0 : ℝ))
            1 0 1).getD []).map IIRFilter.delay).head? ≠ some 1 := by
  rw [generateIIRSet_eval]
  simp

theorem respInner_apply (a : ℂ) :
    ∀ (n : ℕ) (y : ℂ) (pos : ℤ) (r : ℤ → ℂ) (i : ℤ),
      respInner a n y pos r i =
        r i + if pos ≤ i ∧ i < pos + (n : ℤ) then y * a ^ ((i - pos).toNat + 1) else 0 := by
  intro n
  induction n with
  | zero =>
    intro y pos r i
    rw [respInner, if_neg (by omega)]
    ring
  | succ m IH =>
    intro y pos r i
    rw [respInner, IH]
    by_cases hip : i = pos
    · subst hip
      rw [Function.update_same, if_neg (by omega), if_pos (by omega)]
      simp
    · rw [Function.update_noteq hip]
      by_cases hc : pos + 1 ≤ i ∧ i < pos + 1 + (m : ℤ)
      · rw [if_pos hc, if_pos (by push_cast; omega)]
        have he : (i - pos).toNat = (i - (pos + 1)).toNat + 1 := by omega
        rw [he, pow_succ, pow_succ]
        ring
      · rw [if_neg hc, if_neg (by push_cast at hc ⊢; omega)]

theorem iirTruncLen_pos_ne_zero (a : ℂ) (h : 0 < iirTruncLen a) : a ≠ 0 := by
  intro h0
  subst h0
  simp [iirTruncLen, intTrunc] at h

theorem respFilters_apply :
    ∀ (fs : List (ℂ × ℂ × ℤ)) (L : ℕ) (r : ℤ → ℂ) (i : ℤ),
      respFilters fs L r i =
        r i + (fs.map fun t =>
          if t.2.2 ≤ i ∧ i < t.2.2 + min (iirTruncLen t.1) ((L : ℤ) - t.2.2) then
            t.2.1 * t.1 ^ (i - t.2.2).toNat
          else 0).sum := by
  intro fs
  induction fs with
  | nil =>
    intro L r i
    simp [respFilters]
  | cons t rest IH =>
    intro L r i
    rw [respFilters]
    rw [IH, respInner_apply]
    rw [List.map_cons, List.sum_cons]
    have hsel : (if (L : ℤ) - t.2.2 < iirTruncLen t.1 then (L : ℤ) - t.2.2
        else iirTruncLen t.1) = min (iirTruncLen t.1) ((L : ℤ) - t.2.2) := by
      omega
    rw [hsel]
    have hcond : (t.2.2 ≤ i ∧ i < t.2.2 + ((min (iirTruncLen t.1) ((L : ℤ) - t.2.2)).toNat : ℤ))
        ↔ (t.2.2 ≤ i ∧ i < t.2.2 + min (iirTruncLen t.1) ((L : ℤ) - t.2.2)) := by
      omega
    by_cases hc : t.2.2 ≤ i ∧ i < t.2.2 + min (iirTruncLen t.1) ((L : ℤ) - t.2.2)
    · rw [if_pos (hcond.2 hc), if_pos hc]
      have hlenpos : 0 < iirTruncLen t.1 := by omega
      have ha : t.1 ≠ 0 := iirTruncLen_pos_ne_zero _ hlenpos
      have hterm : t.2.1 / t.1 * t.1 ^ ((i - t.2.2).toNat + 1) =
          t.2.1 * t.1 ^ (i - t.2.2).toNat := by
        rw [pow_succ]
        field_simp
        ring
      rw [hterm]
      ring
    · rw [if_neg (fun hx => hc (hcond.1 hx)), if_neg hc]
      ring

theorem iirSetResponse_apply (a1s b0s : List ℂ) (ds : List ℤ) (L : ℕ)
    (r0 : ℤ → ℂ) (i : ℤ) :
    (XLALInspiralIIRSetResponse a1s b0s ds L r0).2 i =
      if a1s.length = b0s.length ∧ a1s.length = ds.length then
        (if 0 ≤ i ∧ i < (L : ℤ) then 0 else r0 i) +
          ((a1s.zip (b0s.zip ds)).map fun t =>
            if t.2.2 ≤ i ∧ i < t.2.2 + min (iirTruncLen t.1) ((L : ℤ) - t.2.2) then
              t.2.1 * t.1 ^ (i - t.2.2).toNat
            else 0).sum
      else r0 i := by
  unfold XLALInspiralIIRSetResponse
  by_cases hlen : a1s.length = b0s.length ∧ a1s.length = ds.length
  · rw [if_pos hlen, if_pos hlen]
    exact respFilters_apply _ _ _ _
  · rw [if_neg hlen, if_neg hlen]

/-- C3 (amended): the response entry at every index i equals the
zero-initialized buffer plus, for each filter, the term b0*a1^(i-delay)
exactly when delay <= i < delay + min(length, L-delay), where length is
the truncation length the code computes, (int)(logf(1e-13)) divided by
logf(|a1|) and truncated - the numerator is truncated to the int -29
before the division, not afterwards as the claim reads; on mismatched
input lengths the buffer is returned untouched, and no index at or
beyond L is ever written. -/
theorem iirSetResponse_characterization (a1s b0s : List ℂ) (ds : List ℤ) (L : ℕ)
    (r0 : ℤ → ℂ) (i : ℤ) :
    ((XLALInspiralIIRSetResponse a1s b0s ds L r0).2 i =
        if a1s.length = b0s.length ∧ a1s.length = ds.length then
          (if 0 ≤ i ∧ i < (L : ℤ) then 0 else r0 i) +
            ((a1s.zip (b0s.zip ds)).map fun t =>
              if t.2.2 ≤ i ∧ i < t.2.2 + min (iirTruncLen t.1) ((L : ℤ) - t.2.2) then
                t.2.1 * t.1 ^ (i - t.2.2).toNat
              else 0).sum
        else r0 i) ∧
      (if (L : ℤ) ≤ i then (XLALInspiralIIRSetResponse a1s b0s ds L r0).2 i = r0 i
        else True) := by
  have hmain := iirSetResponse_apply a1s b0s ds L r0 i
  refine ⟨hmain, ?_⟩
  by_cases hL : (L : ℤ) ≤ i
  · rw [if_pos hL, hmain]
    by_cases hlen : a1s.length = b0s.length ∧ a1s.length = ds.length
    · rw [if_pos hlen, if_neg (by omega)]
      have hz : ((a1s.zip (b0s.zip ds)).map fun t =>
          if t.2.2 ≤ i ∧ i < t.2.2 + min (iirTruncLen t.1) ((L : ℤ) - t.2.2) then
            t.2.1 * t.1 ^ (i - t.2.2).toNat
          else 0).sum = 0 := by
        refine List.sum_eq_zero ?_
        intro x hx
        simp only [List.mem_map] at hx
        obtain ⟨t, _, rfl⟩ := hx
        rw [if_neg (by omega)]
      rw [hz, add_zero]
    · rw [if_neg hlen]
  · rw [if_neg hL]
    trivial

/-- C10: the evaluator zeroes the buffer range [0, L) before
accumulating, so the result on that range does not depend on the
initial buffer contents; and when the length check fails the routine
returns before the memset, leaving the buffer exactly as given. -/
theorem iirSetResponse_initial_buffer (a1s b0s : List ℂ) (ds : List ℤ) (L : ℕ)
    (r0 r0A : ℤ → ℂ) :
    ((XLALInspiralIIRSetResponse a1s b0s ds L r0).1 = true →
        ∀ i : ℤ, 0 ≤ i → i < (L : ℤ) →
          (XLALInspiralIIRSetResponse a1s b0s ds L r0).2 i =
            (XLALInspiralIIRSetResponse a1s b0s ds L r0A).2 i) ∧
      ((XLALInspiralIIRSetResponse a1s b0s ds L r0).1 = false →
        (XLALInspiralIIRSetResponse a1s b0s ds L r0).2 = r0) := by
  by_cases hlen : a1s.length = b0s.length ∧ a1s.length = ds.length
  · constructor
    · intro _ i h0 hL
      have h1 := iirSetResponse_apply a1s b0s ds L r0 i
      have h2 := iirSetResponse_apply a1s b0s ds L r0A i
      rw [if_pos hlen] at h1 h2
      rw [h1, h2, if_pos ⟨h0, hL⟩, if_pos ⟨h0, hL⟩]
    · intro hfail
      unfold XLALInspiralIIRSetResponse at hfail
      rw [if_pos hlen] at hfail
      simp at hfail
  · unfold XLALInspiralIIRSetResponse
    rw [if_neg hlen]
    constructor
    · intro h
      simp at h
    · intro _
      rfl

/-- Witness for C10: a matched-length run is insensitive to the initial
buffer value 3 versus 4 at index 0, and a mismatched run returns the
buffer unchanged. -/
theorem iirSetResponse_initial_buffer_witness :
    (XLALInspiralIIRSetResponse [(1 : ℂ)] [(2 : ℂ)] [(0 : ℤ)] 1 fun _ => 3).2 0 =
        (XLALInspiralIIRSetResponse [(1 : ℂ)] [(2 : ℂ)] [(0 : ℤ)] 1 fun _ => 4).2 0 ∧
      (XLALInspiralIIRSetResponse [(1 : ℂ)] [] [(0 : ℤ)] 1 fun _ => 3).2 = fun _ => 3 := by
  constructor
  · exact (iirSetResponse_initial_buffer [(1 : ℂ)] [(2 : ℂ)] [(0 : ℤ)] 1 (fun _ => 3)
      (fun _ => 4)).1 (by simp [XLALInspiralIIRSetResponse]) 0 (by norm_num) (by norm_num)
  · exact (iirSetResponse_initial_buffer [(1 : ℂ)] [] [(0 : ℤ)] 1 (fun _ => 3)
      (fun _ => 3)).2 (by simp [XLALInspiralIIRSetResponse])

/-- C8: multiplying every PSD entry by a constant c > 0 multiplies the
inner product by exactly 1/c: the PSD enters only the per-bin
denominator, while the filter transforms depend on the PSD only
through its length, which the scaling preserves. -/
theorem innerProduct_psd_scaling (a1s b0s : List ℂ) (ds : List ℤ) (psd : List ℝ) (c : ℝ)
    (hc : 0 < c) (hpsd : psd.Forall fun pv => 0 < pv) :
    XLALInspiralCalculateIIRSetInnerProduct a1s b0s ds (psd.map fun pv => c * pv) =
      XLALInspiralCalculateIIRSetInnerProduct a1s b0s ds psd / c := by
  unfold XLALInspiralCalculateIIRSetInnerProduct
  rw [List.length_map, Finset.sum_div]
  refine Finset.sum_congr rfl ?_
  intro j hj
  have hget : (psd.map fun pv => c * pv).getD j 0 = c * psd.getD j 0 := by
    rw [List.getD_eq_getElem?_getD, List.getD_eq_getElem?_getD, List.getElem?_map]
    cases h : psd[j]? <;> simp [h]
  rw [hget, div_div]
  congr 1
  ring

/-- Witness for C8 with the empty filter set, the PSD [1] and c = 2. -/
theorem innerProduct_psd_scaling_witness :
    XLALInspiralCalculateIIRSetInnerProduct [] [] [] ([(1 : ℝ)].map fun pv => 2 * pv) =
      XLALInspiralCalculateIIRSetInnerProduct [] [] [] [(1 : ℝ)] / 2 :=
  innerProduct_psd_scaling [] [] [] [1] 2 (by norm_num) (by norm_num [List.Forall])

theorem lutIdx_d_bounds (x : ℝ) (h0 : 0 ≤ x) :
    |x - ((lutIdx x : ℕ) : ℝ) / 64| ≤ 1 / 128 := by
  have hv : (0 : ℝ) ≤ x * 64 + 0.5 := by nlinarith
  have hfl : ((lutIdx x : ℕ) : ℝ) = ((⌊x * 64 + 0.5⌋ : ℤ) : ℝ) := by
    unfold lutIdx
    have h := Int.toNat_of_nonneg (Int.floor_nonneg.2 hv)
    exact_mod_cast h
  have h1 := Int.floor_le (x * 64 + 0.5)
  have h2 := Int.lt_floor_add_one (x * 64 + 0.5)
  rw [abs_le]
  constructor <;> [skip; skip] <;> rw [hfl] <;> nlinarith

theorem cosVal_eq (k : ℕ) : cosVal k = Real.cos (2 * Real.pi * k / 64) := by
  unfold cosVal sinVal
  have h : 2 * Real.pi * ((k : ℕ) + 16 : ℕ) / 64 = 2 * Real.pi * k / 64 + Real.pi / 2 := by
    push_cast
    ring
  rw [h, Real.sin_add_pi_div_two]

theorem taylor_sin_err (th u : ℝ) (hu : |u| ≤ 0.05) :
    |Real.sin (th + u) - (Real.sin th + u * Real.cos th - u ^ 2 / 2 * Real.sin th)| ≤
      |u| ^ 3 / 6 + |u| ^ 4 * (5 / 48) := by
  have hu1 : |u| ≤ 1 := le_trans hu (by norm_num)
  have hs := Real.sin_bound hu1
  have hc := Real.cos_bound hu1
  have hsin := Real.abs_sin_le_one th
  have hcos := Real.abs_cos_le_one th
  rw [Real.sin_add]
  have hid : Real.sin th * Real.cos u + Real.cos th * Real.sin u -
      (Real.sin th + u * Real.cos th - u ^ 2 / 2 * Real.sin th) =
      Real.sin th * (Real.cos u - (1 - u ^ 2 / 2)) + Real.cos th * (Real.sin u - u) := by
    ring
  rw [hid]
  have hsu : |Real.sin u - u| ≤ |u| ^ 3 / 6 + |u| ^ 4 * (5 / 96) := by
    have : Real.sin u - u = (Real.sin u - (u - u ^ 3 / 6)) + (-(u ^ 3) / 6) := by ring
    rw [this]
    refine le_trans (abs_add _ _) ?_
    have h3 : |(-(u ^ 3) / 6)| = |u| ^ 3 / 6 := by
      rw [abs_div, abs_neg, abs_pow]
      norm_num
    rw [h3]
    linarith
  calc |Real.sin th * (Real.cos u - (1 - u ^ 2 / 2)) + Real.cos th * (Real.sin u - u)|
      ≤ |Real.sin th * (Real.cos u - (1 - u ^ 2 / 2))| + |Real.cos th * (Real.sin u - u)| :=
        abs_add _ _
    _ = |Real.sin th| * |Real.cos u - (1 - u ^ 2 / 2)| + |Real.cos th| * |Real.sin u - u| := by
        rw [abs_mul, abs_mul]
    _ ≤ 1 * (|u| ^ 4 * (5 / 96)) + 1 * (|u| ^ 3 / 6 + |u| ^ 4 * (5 / 96)) := by
        have p1 : (0 : ℝ) ≤ |Real.cos u - (1 - u ^ 2 / 2)| := abs_nonneg _
        have p2 : (0 : ℝ) ≤ |Real.sin u - u| := abs_nonneg _
        have q1 := mul_le_mul hsin hc p1 zero_le_one
        have q2 := mul_le_mul hcos hsu p2 zero_le_one
        linarith
    _ = |u| ^ 3 / 6 + |u| ^ 4 * (5 / 48) := by ring

theorem taylor_cos_err (th u : ℝ) (hu : |u| ≤ 0.05) :
    |Real.cos (th + u) - (Real.cos th - u * Real.sin th - u ^ 2 / 2 * Real.cos th)| ≤
      |u| ^ 3 / 6 + |u| ^ 4 * (5 / 48) := by
  have hu1 : |u| ≤ 1 := le_trans hu (by norm_num)
  have hs := Real.sin_bound hu1
  have hc := Real.cos_bound hu1
  have hsin := Real.abs_sin_le_one th
  have hcos := Real.abs_cos_le_one th
  rw [Real.cos_add]
  have hid : Real.cos th * Real.cos u - Real.sin th * Real.sin u -
      (Real.cos th - u * Real.sin th - u ^ 2 / 2 * Real.cos th) =
      Real.cos th * (Real.cos u - (1 - u ^ 2 / 2)) - Real.sin th * (Real.sin u - u) := by
    ring
  rw [hid]
  have hsu : |Real.sin u - u| ≤ |u| ^ 3 / 6 + |u| ^ 4 * (5 / 96) := by
    have : Real.sin u - u = (Real.sin u - (u - u ^ 3 / 6)) + (-(u ^ 3) / 6) := by ring
    rw [this]
    refine le_trans (abs_add _ _) ?_
    have h3 : |(-(u ^ 3) / 6)| = |u| ^ 3 / 6 := by
      rw [abs_div, abs_neg, abs_pow]
      norm_num
    rw [h3]
    linarith
  calc |Real.cos th * (Real.cos u - (1 - u ^ 2 / 2)) - Real.sin th * (Real.sin u - u)|
      ≤ |Real.cos th * (Real.cos u - (1 - u ^ 2 / 2))| + |Real.sin th * (Real.sin u - u)| :=
        abs_sub _ _
    _ = |Real.cos th| * |Real.cos u - (1 - u ^ 2 / 2)| + |Real.sin th| * |Real.sin u - u| := by
        rw [abs_mul, abs_mul]
    _ ≤ 1 * (|u| ^ 4 * (5 / 96)) + 1 * (|u| ^ 3 / 6 + |u| ^ 4 * (5 / 96)) := by
        have p1 : (0 : ℝ) ≤ |Real.cos u - (1 - u ^ 2 / 2)| := abs_nonneg _
        have p2 : (0 : ℝ) ≤ |Real.sin u - u| := abs_nonneg _
        have q1 := mul_le_mul hcos hc p1 zero_le_one
        have q2 := mul_le_mul hsin hsu p2 zero_le_one
        linarith
    _ = |u| ^ 3 / 6 + |u| ^ 4 * (5 / 48) := by ring

/-- C5 (amended): over the whole fractional-phase range [0, 1), the
lookup-table sine and cosine evaluations differ from the exact
sin(2 pi x) and cos(2 pi x) by less than 2.1e-5 (the bound 1e-6 the
claim states fails; the second-order Taylor correction at knot spacing
1/64 leaves a residual of order (pi/64)^3/6, about 2e-5). -/
theorem lut_trig_err (x : ℝ) (h0 : 0 ≤ x) (h1 : x < 1) :
    |lutSin x - Real.sin (2 * Real.pi * x)| < 2.1e-5 ∧
      |lutCos x - Real.cos (2 * Real.pi * x)| < 2.1e-5 := by
  have hd := lutIdx_d_bounds x h0
  set m := lutIdx x with hm
  set d : ℝ := x - (m : ℝ) / 64 with hdd
  set u : ℝ := 2 * Real.pi * d with hu
  set th : ℝ := 2 * Real.pi * m / 64 with hth
  have hpi4 : Real.pi < 3.1416 := Real.pi_lt_d4
  have hpi0 : 0 < Real.pi := Real.pi_pos
  have huabs : |u| ≤ 0.05 := by
    rw [hu, abs_mul, abs_of_pos (by positivity : (0 : ℝ) < 2 * Real.pi)]
    nlinarith [abs_nonneg d]
  have hx : 2 * Real.pi * x = th + u := by
    rw [hth, hu, hdd]
    ring
  have hu3 : |u| ^ 3 / 6 + |u| ^ 4 * (5 / 48) < 2.1e-5 := by
    have h3 : |u| ^ 3 ≤ 0.05 ^ 3 := pow_le_pow_left (abs_nonneg u) huabs 3
    have h4 : |u| ^ 4 ≤ 0.05 ^ 4 := pow_le_pow_left (abs_nonneg u) huabs 4
    have hb : |u| ≤ 2 * 3.1416 / 128 := by
      rw [hu, abs_mul, abs_of_pos (by positivity : (0 : ℝ) < 2 * Real.pi)]
      nlinarith [abs_nonneg d]
    have h3b : |u| ^ 3 ≤ (2 * 3.1416 / 128) ^ 3 :=
      pow_le_pow_left (abs_nonneg u) hb 3
    have h4b : |u| ^ 4 ≤ (2 * 3.1416 / 128) ^ 4 :=
      pow_le_pow_left (abs_nonneg u) hb 4
    nlinarith
  have hsinm : sinVal m = Real.sin th := by
    rw [hth]
    rfl
  have hcosm : cosVal m = Real.cos th := by
    rw [cosVal_eq, hth]
  have hs2 : sinVal2PI m = Real.sin th * (2 * Real.pi) := by
    rw [sinVal2PI, hsinm]
  have hc2 : cosVal2PI m = Real.cos th * (2 * Real.pi) := by
    rw [cosVal2PI, sinVal2PI, ← cosVal, hcosm]
  have hs3 : sinVal2PIPI m = Real.sin th * (2 * Real.pi) * Real.pi := by
    rw [sinVal2PIPI, hs2]
  have hc3 : cosVal2PIPI m = Real.cos th * (2 * Real.pi) * Real.pi := by
    rw [cosVal2PIPI, sinVal2PIPI, sinVal2PI, ← cosVal, hcosm]
  have hlutS : lutSin x = Real.sin th + u * Real.cos th - u ^ 2 / 2 * Real.sin th := by
    rw [lutSin, ← hm, divLUTtab, hsinm, hc2, hs3, ← hdd, hu]
    ring
  have hlutC : lutCos x = Real.cos th - u * Real.sin th - u ^ 2 / 2 * Real.cos th := by
    rw [lutCos, ← hm, divLUTtab, hcosm, hs2, hc3, ← hdd, hu]
    ring
  constructor
  · rw [hlutS, hx]
    have := taylor_sin_err th u huabs
    rw [abs_sub_comm]
    linarith
  · rw [hlutC, hx]
    have := taylor_cos_err th u huabs
    rw [abs_sub_comm]
    linarith

/-- Witness for C5 (amended) at the fractional phase 0. -/
theorem lut_trig_err_witness :
    |lutSin 0 - Real.sin (2 * Real.pi * 0)| < 2.1e-5 ∧
      |lutCos 0 - Real.cos (2 * Real.pi * 0)| < 2.1e-5 :=
  lut_trig_err 0 (by norm_num) (by norm_num)

/-- C5 counterexample: at the fractional phase 1/130 the nearest knot
is 0 and the lookup-table sine evaluates to exactly 2 pi/130 = pi/65,
while sin(2 pi/130) = sin(pi/65) is smaller by about 1.9e-5, so the
claimed error bound 1e-6 fails. -/
theorem lut_sin_err_counterexample :
    ¬ |lutSin (1 / 130) - Real.sin (2 * Real.pi * (1 / 130))| < 1e-6 := by
  have hpi4 : Real.pi < 3.1416 := Real.pi_lt_d4
  have hpi4l : 3.1415 < Real.pi := Real.pi_gt_d4
  have hpi0 : 0 < Real.pi := Real.pi_pos
  have hidx : lutIdx (1 / 130 : ℝ) = 0 := by
    unfold lutIdx
    have : (⌊(1 / 130 : ℝ) * 64 + 0.5⌋ : ℤ) = 0 := by
      rw [Int.floor_eq_iff] <;> norm_num
    rw [this]
    rfl
  have hsv0 : sinVal 0 = 0 := by
    unfold sinVal
    norm_num
  have hsv16 : sinVal 16 = 1 := by
    unfold sinVal
    rw [show 2 * Real.pi * ((16 : ℕ) : ℝ) / 64 = Real.pi / 2 by push_cast; ring,
      Real.sin_pi_div_two]
  have hlut : lutSin (1 / 130) = Real.pi / 65 := by
    rw [lutSin, hidx, hsv0, divLUTtab, cosVal2PI, sinVal2PI, sinVal2PIPI, sinVal2PI, hsv0]
    norm_num [hsv16]
    ring
  rw [hlut, show 2 * Real.pi * (1 / 130 : ℝ) = Real.pi / 65 by ring]
  set v : ℝ := Real.pi / 65 with hv
  have hv1 : (0.0483 : ℝ) ≤ v := by
    rw [hv]
    nlinarith
  have hv2 : v ≤ (0.0484 : ℝ) := by
    rw [hv]
    nlinarith
  have hvabs : |v| ≤ 1 := by
    rw [abs_of_pos (by positivity)]
    linarith
  have hs := Real.sin_bound hvabs
  have habs : |v| = v := abs_of_pos (by positivity)
  rw [habs] at hs
  have hsin_le : Real.sin v ≤ v - v ^ 3 / 6 + v ^ 4 * (5 / 96) := by
    have := abs_le.1 hs
    linarith [this.2]
  have h3 : (0.0483 : ℝ) ^ 3 ≤ v ^ 3 := pow_le_pow_left (by norm_num) hv1 3
  have h4 : v ^ 4 ≤ (0.0484 : ℝ) ^ 4 := pow_le_pow_left (by positivity) hv2 4
  have hgap : (1e-6 : ℝ) ≤ v - Real.sin v := by
    nlinarith
  intro hcon
  rw [abs_sub_comm] at hcon
  have : Real.sin v - v ≤ -(1e-6) := by linarith
  have habs2 : (1e-6 : ℝ) ≤ |Real.sin v - v| := by
    rw [abs_sub_comm]
    exact le_trans hgap (le_abs_self _)
  linarith [abs_lt.1 hcon]

theorem log_ten_bounds : 2.3 < Real.log 10 ∧ Real.log 10 < 2.30769 := by
  have h2g := Real.log_two_gt_d9
  have h2l := Real.log_two_lt_d9
  have hser := Real.abs_log_sub_add_sum_range_le (x := (-(1 / 4) : ℝ))
    (by rw [abs_lt]; norm_num) 4
  rw [show (1 : ℝ) - -(1 / 4) = 5 / 4 by norm_num] at hser
  have hsum : (∑ i ∈ Finset.range 4, (-(1 / 4) : ℝ) ^ (i + 1) / (i + 1)) = -685 / 3072 := by
    rw [Finset.sum_range_succ, Finset.sum_range_succ, Finset.sum_range_succ,
      Finset.sum_range_succ, Finset.sum_range_zero]
    norm_num
  rw [hsum, show |(-(1 / 4) : ℝ)| = 1 / 4 by norm_num] at hser
  norm_num at hser
  have hlog54 := abs_le.1 hser
  have h10 : Real.log 10 = 3 * Real.log 2 + Real.log (5 / 4) := by
    rw [show (10 : ℝ) = 2 ^ 3 * (5 / 4) by norm_num,
      Real.log_mul (by norm_num) (by norm_num), Real.log_pow]
    push_cast
    ring
  constructor <;> rw [h10] <;> [nlinarith [hlog54.1, hlog54.2]; nlinarith [hlog54.1, hlog54.2]]

theorem log_1e13_eq : Real.log (1e-13 : ℝ) = -(13 * Real.log 10) := by
  rw [show (1e-13 : ℝ) = ((10 : ℝ) ^ (13 : ℕ))⁻¹ by norm_num, Real.log_inv, Real.log_pow]
  push_cast
  ring

theorem intTrunc_log_1e13 : intTrunc (Real.log 1e-13) = -29 := by
  obtain ⟨hg, hl⟩ := log_ten_bounds
  unfold intTrunc
  rw [log_1e13_eq, if_pos (by nlinarith)]
  rw [Int.ceil_eq_iff]
  constructor <;> push_cast <;> nlinarith

/-- C3 counterexample: for the single filter a1 = exp(-1/10), b0 = 1,
delay = 0 on a buffer of length 400, the code truncates logf(1e-13) to
the int -29 before dividing, giving 290 accumulated terms, so the
entry at index 295 is 0; the claimed length log(1e-13)/log|a1| gives
299 terms and the nonzero entry b0*a1^295 there. -/
theorem iirSetResponse_length_counterexample :
    (XLALInspiralIIRSetResponse [((Real.exp (-(1 : ℝ) / 10) : ℝ) : ℂ)] [1] [0] 400
        fun _ => 0).2 295 ≠
      specIIRResponse [((Real.exp (-(1 : ℝ) / 10) : ℝ) : ℂ)] [1] [0] 400 295 := by
  set a : ℂ := ((Real.exp (-(1 : ℝ) / 10) : ℝ) : ℂ) with ha
  have hane : a ≠ 0 := by
    rw [ha]
    exact_mod_cast Complex.ofReal_ne_zero.2 (Real.exp_ne_zero _)
  have habs : Complex.abs a = Real.exp (-(1 : ℝ) / 10) := by
    rw [ha, Complex.abs_ofReal, abs_of_pos (Real.exp_pos _)]
  have hlog : Real.log (Complex.abs a) = -(1 / 10) := by
    rw [habs, Real.log_exp]
    norm_num
  have hcode : iirTruncLen a = 290 := by
    unfold iirTruncLen
    rw [intTrunc_log_1e13, hlog]
    rw [show ((-29 : ℤ) : ℝ) / -(1 / 10) = ((290 : ℤ) : ℝ) by norm_num]
    unfold intTrunc
    rw [if_neg (by norm_num), Int.floor_intCast]
  have hspec : specIIRLen a = 299 := by
    obtain ⟨hg, hl⟩ := log_ten_bounds
    unfold specIIRLen
    rw [hlog, log_1e13_eq, show -(13 * Real.log 10) / -(1 / 10) = 130 * Real.log 10 by ring]
    unfold intTrunc
    rw [if_neg (by nlinarith)]
    rw [Int.floor_eq_iff]
    constructor <;> push_cast <;> nlinarith
  have hlhs : (XLALInspiralIIRSetResponse [a] [1] [0] 400 fun _ => 0).2 295 = 0 := by
    unfold XLALInspiralIIRSetResponse
    rw [if_pos (by norm_num)]
    dsimp only
    rw [respFilters_apply]
    simp only [List.zip_cons_cons, List.zip_nil_right, List.map_cons, List.map_nil,
      List.sum_cons, List.sum_nil]
    rw [if_pos (by norm_num), if_neg (by rw [hcode]; norm_num)]
    norm_num
  have hrhs : specIIRResponse [a] [1] [0] 400 295 = a ^ 295 := by
    unfold specIIRResponse
    simp only [List.zip_cons_cons, List.zip_nil_right, List.map_cons, List.map_nil,
      List.sum_cons, List.sum_nil]
    rw [if_pos (by rw [hspec]; norm_num)]
    norm_num
    congr 1
  rw [hlhs, hrhs]
  exact fun h => pow_ne_zero 295 hane h.symm

theorem demodSeg_abort_iff (p : DemodParams) (i alf : ℕ) (X : ℤ → ℂ) :
    isOkE (demodSeg p i alf X) = false ↔
      xTempVal p i alf < 0 ∨
        (0 ≤ xTempVal p i alf ∧ sftIndexVal p i alf < 0) ∨
        (0 ≤ xTempVal p i alf ∧ 0 ≤ sftIndexVal p i alf ∧
          tempFreq0Val p i alf < LD_SMALL ∧
          (p.maxSFTindex : ℤ) < (sftIndexVal p i alf + 2 * (p.Dterms : ℤ) - 1) % UINT4_MOD) ∨
        (0 ≤ xTempVal p i alf ∧ 0 ≤ sftIndexVal p i alf ∧
          ¬tempFreq0Val p i alf < LD_SMALL ∧
          (p.maxSFTindex : ℤ) < (sftIndexVal p i alf - 1) % UINT4_MOD) := by
  unfold demodSeg
  dsimp only
  split_ifs with h1 h2 h3 h4 h5
  · simp [isOkE, h1]
  · simp [isOkE, not_lt.1 h1, h2]
  · simp [isOkE, not_lt.1 h1, not_lt.1 h2, h3, h4, not_lt.1 h2]
  · simp [isOkE, h1, h2, h3, h4]
  · simp [isOkE, not_lt.1 h1, not_lt.1 h2, h3, h5]
  · simp [isOkE, h1, h2, h3, h5]

theorem demodSeg_reads_only_window (p : DemodParams) (i alf : ℕ) (X Xb : ℤ → ℂ)
    (hX : ∀ m ∈ demodReadIdx p i alf, X m = Xb m) :
    demodSeg p i alf X = demodSeg p i alf Xb := by
  have hmem : ∀ k : ℕ, k < 2 * p.Dterms →
      X (sftIndexVal p i alf + (k : ℤ)) = Xb (sftIndexVal p i alf + (k : ℤ)) := by
    intro k hk
    refine hX _ ?_
    unfold demodReadIdx
    exact List.mem_map_of_mem (fun k : ℕ => sftIndexVal p i alf + (k : ℤ))
      (List.mem_range.2 hk)
  have hs : ∀ ts tc tf sm, dirichletKernelSmall ts tc tf p.Dterms sm X (sftIndexVal p i alf) =
      dirichletKernelSmall ts tc tf p.Dterms sm Xb (sftIndexVal p i alf) := by
    intro ts tc tf sm
    unfold dirichletKernelSmall
    refine Finset.sum_congr rfl ?_
    intro k hk
    rw [hmem k (Finset.mem_range.1 hk)]
  have hg : ∀ ts tc tf, dirichletKernelGen ts tc tf p.Dterms X (sftIndexVal p i alf) =
      dirichletKernelGen ts tc tf p.Dterms Xb (sftIndexVal p i alf) := by
    intro ts tc tf
    unfold dirichletKernelGen
    refine Finset.sum_congr rfl ?_
    intro k hk
    rw [hmem k (Finset.mem_range.1 hk)]
  unfold demodSeg
  simp only [hs, hg]

/-- C2 (amended): the per-(bin, segment) body aborts exactly when
xTemp < 0, or sftIndex < 0, or - after the Dirichlet loop has read its
window - the post-loop check trips, which in the small-offset branch
compares the advanced index sftIndex + 2*Dterms - 1 (the last index
read) against maxSFTindex, but in the generic branch compares
sftIndex - 1 (one below the first index read, converted to unsigned),
so a window extending past maxSFTindex is not detected there; the
spectrum is accessed only at the 2*Dterms indices starting at
sftIndex. -/
theorem demodSeg_abort_characterization (p : DemodParams) (i alf : ℕ) (X : ℤ → ℂ) :
    (isOkE (demodSeg p i alf X) = false ↔
        xTempVal p i alf < 0 ∨
          (0 ≤ xTempVal p i alf ∧ sftIndexVal p i alf < 0) ∨
          (0 ≤ xTempVal p i alf ∧ 0 ≤ sftIndexVal p i alf ∧
            tempFreq0Val p i alf < LD_SMALL ∧
            (p.maxSFTindex : ℤ) < (sftIndexVal p i alf + 2 * (p.Dterms : ℤ) - 1) % UINT4_MOD) ∨
          (0 ≤ xTempVal p i alf ∧ 0 ≤ sftIndexVal p i alf ∧
            ¬tempFreq0Val p i alf < LD_SMALL ∧
            (p.maxSFTindex : ℤ) < (sftIndexVal p i alf - 1) % UINT4_MOD)) ∧
      ∀ Xb : ℤ → ℂ, (∀ m ∈ demodReadIdx p i alf, X m = Xb m) →
        demodSeg p i alf X = demodSeg p i alf Xb :=
  ⟨demodSeg_abort_iff p i alf X, demodSeg_reads_only_window p i alf X⟩

theorem demodExample_xTemp : xTempVal demodExample 0 0 = 21 / 2 := by
  unfold xTempVal xSumVal demodExample
  norm_num

theorem demodExample_sft : sftIndexVal demodExample 0 0 = 7 := by
  unfold sftIndexVal
  rw [demodExample_xTemp, show (⌊(21 / 2 : ℝ)⌋ : ℤ) = 10 by rw [Int.floor_eq_iff] <;> norm_num]
  unfold demodExample
  norm_num

theorem demodExample_tf0 : tempFreq0Val demodExample 0 0 = 1 / 2 := by
  unfold tempFreq0Val
  rw [demodExample_xTemp, show (⌊(21 / 2 : ℝ)⌋ : ℤ) = 10 by rw [Int.floor_eq_iff] <;> norm_num]
  norm_num

theorem LD_SMALL_lt_half : LD_SMALL < 1 / 2 := by
  unfold LD_SMALL
  have hpi := Real.pi_gt_three
  rw [div_lt_iff (by positivity)]
  nlinarith

theorem demodExample_seg_ok (X : ℤ → ℂ) : isOkE (demodSeg demodExample 0 0 X) = true := by
  have h := demodSeg_abort_iff demodExample 0 0 X
  have hnot : ¬isOkE (demodSeg demodExample 0 0 X) = false := by
    rw [h]
    push_neg
    refine ⟨?_, ?_, ?_, ?_⟩
    · rw [demodExample_xTemp]
      norm_num
    · intro _
      rw [demodExample_sft]
      norm_num
    · intro _ _ hsm
      rw [demodExample_tf0] at hsm
      exact absurd hsm (not_lt.2 (le_of_lt LD_SMALL_lt_half))
    · intro _ _ _
      rw [demodExample_sft]
      unfold demodExample UINT4_MOD
      norm_num
  cases hok : isOkE (demodSeg demodExample 0 0 X)
  · exact absurd hok hnot
  · rfl

/-- C2 counterexample: at demodExample the generic branch runs (the
fractional offset is 1/2), the read window [7, 14] extends past
maxSFTindex = 10, the out-of-range index 14 is among the indices read,
and yet the body does not abort, refuting the claim that a window
extending past the maximum valid SFT index always aborts (and that no
out-of-range sample is read). -/
theorem demodSeg_window_not_checked_counterexample :
    isOkE (demodSeg demodExample 0 0 (demodExample.Xalpha 0)) = true ∧
      0 ≤ sftIndexVal demodExample 0 0 ∧
      (demodExample.maxSFTindex : ℤ) <
        sftIndexVal demodExample 0 0 + 2 * (demodExample.Dterms : ℤ) - 1 ∧
      (sftIndexVal demodExample 0 0 + 2 * (demodExample.Dterms : ℤ) - 1) ∈
        demodReadIdx demodExample 0 0 := by
  refine ⟨demodExample_seg_ok _, ?_, ?_, ?_⟩
  · rw [demodExample_sft]
    norm_num
  · rw [demodExample_sft]
    unfold demodExample
    norm_num
  · have h14 : sftIndexVal demodExample 0 0 + 2 * (demodExample.Dterms : ℤ) - 1 =
        sftIndexVal demodExample 0 0 + ((7 : ℕ) : ℤ) := by
      rw [demodExample_sft]
      unfold demodExample
      norm_num
    rw [h14]
    unfold demodReadIdx
    exact List.mem_map_of_mem (fun k : ℕ => sftIndexVal demodExample 0 0 + (k : ℤ))
      (List.mem_range.2 (show 7 < 2 * demodExample.Dterms by norm_num [demodExample]))

/-- Witness for C2 (amended): the locality part applied at demodExample
against a spectrum that differs only below the read window, which
starts at index 7. -/
theorem demodSeg_abort_characterization_witness :
    demodSeg demodExample 0 0 (fun _ => 0) =
      demodSeg demodExample 0 0 (fun m => if m < 7 then 37 else 0) :=
  (demodSeg_abort_characterization demodExample 0 0 (fun _ => 0)).2
    (fun m => if m < 7 then 37 else 0)
    (by
      intro m hm
      unfold demodReadIdx at hm
      obtain ⟨k, _, rfl⟩ := List.mem_map.1 hm
      simp only []
      rw [demodExample_sft, if_neg (by omega)])

theorem demodBinLoop_ok (p : DemodParams) (i : ℕ) :
    ∀ (l : List ℕ) (acc v : ℂ × ℂ), demodBinLoop p i acc l = .ok v →
      v.1 = acc.1 + (l.map fun alf => (p.aCoe alf : ℂ) * segQXP p i alf).sum ∧
        v.2 = acc.2 + (l.map fun alf => (p.bCoe alf : ℂ) * segQXP p i alf).sum := by
  intro l
  induction l with
  | nil =>
    intro acc v h
    rw [demodBinLoop] at h
    injection h with h
    subst h
    simp
  | cons alf rest IH =>
    intro acc v h
    rw [demodBinLoop] at h
    cases hseg : demodSeg p i alf (p.Xalpha alf) with
    | error e =>
      rw [hseg] at h
      exact absurd h (by simp)
    | ok q =>
      rw [hseg] at h
      obtain ⟨h1, h2⟩ := IH _ _ h
      have hq : segQXP p i alf = q := by
        unfold segQXP
        rw [hseg]
        rfl
      constructor
      · rw [h1, List.map_cons, List.sum_cons, hq]
        apply Complex.ext <;>
          simp [Complex.add_re, Complex.add_im, Complex.re_ofReal_mul,
            Complex.im_ofReal_mul] <;> ring
      · rw [h2, List.map_cons, List.sum_cons, hq]
        apply Complex.ext <;>
          simp [Complex.add_re, Complex.add_im, Complex.re_ofReal_mul,
            Complex.im_ofReal_mul] <;> ring

theorem demodBin_ok (p : DemodParams) (i : ℕ) (v : ℂ × ℂ) (h : demodBin p i = .ok v) :
    v = (FaVal p i, FbVal p i) := by
  obtain ⟨h1, h2⟩ := demodBinLoop_ok p i (List.range p.SFTno) (⟨0, 0⟩, ⟨0, 0⟩) v h
  rw [Prod.ext_iff]
  unfold FaVal FbVal
  constructor
  · rw [h1]
    apply Complex.ext <;> simp
  · rw [h2]
    apply Complex.ext <;> simp

theorem demodMainLoop_ok (p : DemodParams) :
    ∀ (l : List ℕ) (out v : List ℝ × List ℂ × List ℂ), demodMainLoop p out l = .ok v →
      v = (out.1 ++ l.map fun i => demodStat p (FaVal p i, FbVal p i),
           out.2.1 ++ if p.returnFaFb then l.map fun i => FaVal p i else [],
           out.2.2 ++ if p.returnFaFb then l.map fun i => FbVal p i else []) := by
  intro l
  induction l with
  | nil =>
    intro out v h
    rw [demodMainLoop] at h
    injection h with h
    subst h
    simp
  | cons i rest IH =>
    intro out v h
    rw [demodMainLoop] at h
    cases hbin : demodBin p i with
    | error e =>
      rw [hbin] at h
      exact absurd h (by simp)
    | ok Fab =>
      rw [hbin] at h
      have hFab : Fab = (FaVal p i, FbVal p i) := demodBin_ok p i Fab hbin
      have hv := IH _ _ h
      rw [hv, hFab]
      by_cases hf : p.returnFaFb = true <;>
        simp [hf, List.append_assoc]

theorem demodStat_normSq (p : DemodParams) (Fa Fb : ℂ) :
    demodStat p (Fa, Fb) = 4 / ((p.SFTno : ℝ) * p.D) *
      (p.B * Complex.normSq Fa + p.A * Complex.normSq Fb -
        2 * p.C * (Fa * (starRingEnd ℂ) Fb).re) := by
  unfold demodStat
  rw [Complex.normSq_apply, Complex.normSq_apply, Complex.mul_re, Complex.conj_re,
    Complex.conj_im]
  ring

/-- C4: on a run of TestLALDemod that does not abort, the statistic
stored for every trial bin i is (4/(M*D))*(B*|Fa|^2 + A*|Fb|^2 -
2*C*Re(Fa*conj(Fb))) where Fa, Fb are the per-bin antenna-pattern
weighted partial sums over all M segments, and when returnFaFb is set
the arrays of those partial sums are returned as well. -/
theorem testLALDemod_stat (p : DemodParams) (h : isOkE (TestLALDemod p) = true) :
    TestLALDemod p = .ok
      ((List.range p.imax).map fun i =>
          4 / ((p.SFTno : ℝ) * p.D) *
            (p.B * Complex.normSq (FaVal p i) + p.A * Complex.normSq (FbVal p i) -
              2 * p.C * (FaVal p i * (starRingEnd ℂ) (FbVal p i)).re),
        if p.returnFaFb then (List.range p.imax).map fun i => FaVal p i else [],
        if p.returnFaFb then (List.range p.imax).map fun i => FbVal p i else []) := by
  cases hv : TestLALDemod p with
  | error e =>
    rw [hv] at h
    simp [isOkE] at h
  | ok v =>
    unfold TestLALDemod at hv
    have hchar := demodMainLoop_ok p (List.range p.imax) ([], [], []) v hv
    refine congrArg Except.ok ?_
    rw [hchar]
    simp only [List.nil_append]
    congr 1
    exact List.map_congr_left fun i _ => demodStat_normSq p (FaVal p i) (FbVal p i)

theorem demodExample_bin_ok : ∃ w, demodBin demodExample 0 = Except.ok w := by
  have hok := demodExample_seg_ok (demodExample.Xalpha 0)
  cases hseg : demodSeg demodExample 0 0 (demodExample.Xalpha 0) with
  | error e =>
    rw [hseg] at hok
    simp [isOkE] at hok
  | ok q =>
    have h1 : demodBin demodExample 0 = demodBinLoop demodExample 0 (⟨0, 0⟩, ⟨0, 0⟩) [0] := by
      unfold demodBin
      rw [show List.range demodExample.SFTno = [0] by norm_num [demodExample, List.range_succ]]
    rw [h1, demodBinLoop, hseg]
    exact ⟨_, rfl⟩

/-- Witness for C4 at demodExample, whose single (bin, segment) body
succeeds. -/
theorem testLALDemod_stat_witness :
    TestLALDemod demodExample = .ok
      ((List.range demodExample.imax).map fun i =>
          4 / ((demodExample.SFTno : ℝ) * demodExample.D) *
            (demodExample.B * Complex.normSq (FaVal demodExample i) +
              demodExample.A * Complex.normSq (FbVal demodExample i) -
              2 * demodExample.C *
                (FaVal demodExample i * (starRingEnd ℂ) (FbVal demodExample i)).re),
        if demodExample.returnFaFb then
          (List.range demodExample.imax).map fun i => FaVal demodExample i
        else [],
        if demodExample.returnFaFb then
          (List.range demodExample.imax).map fun i => FbVal demodExample i
        else []) := by
  refine testLALDemod_stat demodExample ?_
  obtain ⟨w, hw⟩ := demodExample_bin_ok
  unfold TestLALDemod
  rw [show List.range demodExample.imax = [0] by norm_num [demodExample, List.range_succ]]
  rw [demodMainLoop.eq_def]
  simp only [hw, demodMainLoop.eq_def, isOkE]

/-- Witness for C7 at a concrete envelope and bet = 1 > 0. -/
theorem generateIIRSet_a1_stable_witness :
    ((XLALInspiralGenerateIIRSet (List.replicate 6 (1 : ℝ)) (List.replicate 6 (0 : ℝ))
          1 0 1).getD []).Forall
      fun f => (∃ js : ℤ, 2 ≤ js ∧ Complex.abs f.a1 = Real.exp (-(1 : ℝ) / (js : ℝ))) ∧
        Complex.abs f.a1 < 1 :=
  generateIIRSet_a1_stable _ _ _ _ _ (by norm_num)

end LALIIR

end
